import Mathlib

/-!
Verification of the priceTracker core: data model and content signature
(`src/models.py`), storage queries (`src/storage.py`), drop detection and
alert deduplication (`src/engine.py`), the multi-strategy price extractor
(`src/extract_simple.py`), and the generic adapter (`src/adapter_generic.py`).

Modelling conventions: Python floats are rationals; the SQLite tables are
in-memory append-only lists of rows; timestamps are rationals counting
seconds on one uniform timeline; the SHA-1 hex digest of the signature
preimage is modelled by the preimage string itself (SHA-1 is a fixed
deterministic function, so equal preimages give equal digests, and
distinct preimages are read as giving distinct digests — the ideal-hash
reading).
-/

namespace PriceTracker

/-- Decimal digit character for a digit value, used to model base-10
printing of numbers. -/
def digitToChar (d : Nat) : Char :=
  match d with
  | 0 => '0' | 1 => '1' | 2 => '2' | 3 => '3' | 4 => '4'
  | 5 => '5' | 6 => '6' | 7 => '7' | 8 => '8' | 9 => '9'
  | _ => '?'

/-- Little-endian base-10 digits computed with structural fuel; agrees
with `Nat.digits 10` once the fuel dominates the number. -/
def natDigitsAux : Nat → Nat → List Nat
  | _, 0 => []
  | 0, _ + 1 => []
  | fuel + 1, n + 1 => (n + 1) % 10 :: natDigitsAux fuel ((n + 1) / 10)

/-- Little-endian base-10 digits of a natural number. -/
def natDigits (n : Nat) : List Nat := natDigitsAux n n

theorem natDigitsAux_eq_digits :
    ∀ fuel n, n ≤ fuel → natDigitsAux fuel n = Nat.digits 10 n := by
  intro fuel
  induction fuel with
  | zero =>
    intro n hn
    interval_cases n
    simp [natDigitsAux]
  | succ f ih =>
    intro n hn
    match n with
    | 0 => simp [natDigitsAux]
    | m + 1 =>
      rw [natDigitsAux, Nat.digits_def' (by norm_num : 1 < 10) (Nat.succ_pos m)]
      congr 1
      exact ih _ (Nat.lt_succ_iff.mp (Nat.lt_of_lt_of_le
        (Nat.div_lt_self (Nat.succ_pos m) (by norm_num)) hn))

theorem natDigits_eq_digits (n : Nat) : natDigits n = Nat.digits 10 n :=
  natDigitsAux_eq_digits n n le_rfl

/-- Base-10 rendering of a natural number (its digits, most significant
first), modelling Python's decimal printing. -/
def natRepr (n : Nat) : String :=
  if n = 0 then "0"
  else String.mk (((natDigits n).map digitToChar).reverse)

/-- Base-10 rendering of an integer with a leading minus sign when
negative. -/
def intRepr (z : Int) : String :=
  if z < 0 then "-" ++ natRepr z.natAbs else natRepr z.natAbs

/-- Injective rendering of a rational as numerator and denominator,
modelling Python's `repr` of the price float (which is injective on
float values). -/
def ratRepr (q : ℚ) : String :=
  intRepr q.num ++ "/" ++ natRepr q.den

/-- Rendering of the Python expression `list_price or ''` in the
signature preimage: `or` yields the empty string when the value is
absent (None) or falsy (0.0). -/
def pyOrEmpty (lp : Option ℚ) : String :=
  match lp with
  | none => ""
  | some q => if q = 0 then "" else ratRepr q

/-- Signature preimage of `OfferSnapshot.generate_signature`
(`models.py`): the f-string over url, price, currency and
`list_price or ''` joined with pipes. The stored `raw_signature` is the
SHA-1 hex digest of this string, modelled here by the string itself. -/
def generate_signature (url : String) (price : ℚ) (currency : String)
    (list_price : Option ℚ) : String :=
  url ++ "|" ++ ratRepr price ++ "|" ++ currency ++ "|" ++ pyOrEmpty list_price

/-- Round a rational to the nearest integer, ties to even, the rounding
mode of Python's fixed-point float formatting. -/
def roundHalfEven (q : ℚ) : Int :=
  let f := ⌊q⌋
  if q - f < 1/2 then f
  else if q - f > 1/2 then f + 1
  else if Even f then f else f + 1

/-- Fixed-point rendering with `d` digits after the point, modelling
Python's format specs `.2f` and `.1f`. -/
def fmtFixed (d : Nat) (q : ℚ) : String :=
  let n := roundHalfEven (q * ((10 ^ d : Nat) : ℚ))
  let sign := if n < 0 then "-" else ""
  let m := n.natAbs
  let ip := m / 10 ^ d
  let fp := m % 10 ^ d
  let fpStr := natRepr fp
  let pad := String.mk (List.replicate (d - fpStr.length) '0')
  sign ++ natRepr ip ++ "." ++ pad ++ fpStr

/-- Python format `.2f`. -/
def fmt2 (q : ℚ) : String := fmtFixed 2 q

/-- Python format `.1f`. -/
def fmt1 (q : ℚ) : String := fmtFixed 1 q

/-- Product specification (`models.ProductSpec`); thresholds are passed
to the engine separately, as in the code. -/
structure ProductSpec where
  id : String
  links : List String
  currency : Option String
deriving DecidableEq

/-- Price snapshot row (`models.OfferSnapshot`); `ts` is the timestamp
in seconds, `price` the Python float as a rational. -/
structure OfferSnapshot where
  product_id : String
  retailer_id : String
  url : String
  ts : ℚ
  price : ℚ
  currency : String
  list_price : Option ℚ
  in_stock : Option Bool
  parse_source : String
  raw_signature : String
deriving DecidableEq

/-- Price drop event row (`models.PriceEvent`). -/
structure PriceEvent where
  product_id : String
  retailer_id : String
  ts : ℚ
  event_type : String
  old_price : ℚ
  new_price : ℚ
  pct_change : ℚ
  reason : String
deriving DecidableEq

/-- State of the two SQLite tables (`storage.Storage`): append-only
lists of snapshot rows and alert rows in insertion order. -/
structure StorageState where
  snapshots : List OfferSnapshot
  alerts : List PriceEvent
deriving DecidableEq

/-- Storage.save_snapshot: insert one snapshot row. -/
def save_snapshot (st : StorageState) (s : OfferSnapshot) : StorageState :=
  { st with snapshots := st.snapshots ++ [s] }

/-- Storage.save_alert: insert one alert row. -/
def save_alert (st : StorageState) (a : PriceEvent) : StorageState :=
  { st with alerts := st.alerts ++ [a] }

/-- Rows of the snapshots table for one product
(`WHERE product_id = ?`). -/
def snapshotsFor (st : StorageState) (pid : String) : List OfferSnapshot :=
  st.snapshots.filter (fun s => s.product_id == pid)

/-- Row ordering used by `ORDER BY ts DESC`. -/
def tsDesc (a b : OfferSnapshot) : Prop := b.ts ≤ a.ts

instance : DecidableRel tsDesc :=
  fun a b => inferInstanceAs (Decidable (b.ts ≤ a.ts))

instance : IsTotal OfferSnapshot tsDesc :=
  ⟨fun a b => le_total b.ts a.ts⟩

instance : IsTrans OfferSnapshot tsDesc :=
  ⟨fun _ _ _ h1 h2 => le_trans h2 h1⟩

/-- Result rows of
`SELECT ... WHERE product_id = ? ORDER BY ts DESC`. -/
def rowsDesc (st : StorageState) (pid : String) : List OfferSnapshot :=
  (snapshotsFor st pid).insertionSort tsDesc

/-- Storage.get_last_price: `ORDER BY ts DESC LIMIT 1 OFFSET 1` — the
price of the row one past the newest, when it exists. -/
def get_last_price (st : StorageState) (pid : String) : Option ℚ :=
  ((rowsDesc st pid).get? 1).map OfferSnapshot.price

/-- Storage.check_recent_alert: true when some alert row has this
product and new price and a timestamp strictly inside the trailing
window of `hours` hours before `now`
(`datetime(ts) > datetime('now', '-H hours')`). -/
def check_recent_alert (st : StorageState) (now : ℚ) (pid : String)
    (new_price : ℚ) (hours : ℚ) : Bool :=
  st.alerts.any (fun a =>
    a.product_id == pid && a.new_price == new_price &&
      decide (now - 3600 * hours < a.ts))

/-- Storage.get_lowest_price:
`SELECT MIN(price) WHERE product_id = ?`. -/
def get_lowest_price (st : StorageState) (pid : String) : Option ℚ :=
  match (snapshotsFor st pid).map OfferSnapshot.price with
  | [] => none
  | p :: ps => some (ps.foldl min p)

/-- Storage.get_current_price: the newest row's price
(`ORDER BY ts DESC LIMIT 1`). -/
def get_current_price (st : StorageState) (pid : String) : Option ℚ :=
  (rowsDesc st pid).head?.map OfferSnapshot.price

/-- Reason string built by `PriceEngine.detect_drop` (the f-string
`last OLD → NEW (-PCT%)` with two and one decimal places). -/
def dropReason (last_price current_price pct_drop : ℚ) : String :=
  "last " ++ fmt2 last_price ++ " → " ++ fmt2 current_price ++
    " (-" ++ fmt1 (pct_drop * 100) ++ "%)"

/-- PriceEngine.detect_drop. `now` stands for the wall clock read by
the dedup query and by the event timestamp default. -/
def detect_drop (st : StorageState) (now : ℚ) (snapshot : OfferSnapshot)
    (min_abs min_pct : ℚ) : Option PriceEvent :=
  match get_last_price st snapshot.product_id with
  | none => none
  | some last_price =>
    let current_price := snapshot.price
    let abs_drop := last_price - current_price
    let pct_drop := if last_price > 0 then abs_drop / last_price else 0
    if abs_drop ≥ min_abs ∧ pct_drop ≥ min_pct then
      if check_recent_alert st now snapshot.product_id current_price 12 then
        none
      else
        some {
          product_id := snapshot.product_id
          retailer_id := snapshot.retailer_id
          ts := now
          event_type := "drop"
          old_price := last_price
          new_price := current_price
          pct_change := pct_drop
          reason := dropReason last_price current_price pct_drop }
    else none

/-- PriceEngine.process_snapshot: save the snapshot first, run drop
detection on the updated store, persist the alert when one fires, and
return the event (email delivery is external I/O and not modelled). -/
def process_snapshot (st : StorageState) (now : ℚ)
    (snapshot : OfferSnapshot) (min_abs min_pct : ℚ) :
    StorageState × Option PriceEvent :=
  let st1 := save_snapshot st snapshot
  match detect_drop st1 now snapshot min_abs min_pct with
  | some ev => (save_alert st1 ev, some ev)
  | none => (st1, none)

/-- Characters of a string with every comma removed, modelling the
Python `.replace(',', '')` calls of the extractor. -/
def stripCommas (s : String) : String :=
  String.mk (s.data.filter (fun c => c ≠ ','))

/-- Running value of a list of decimal digit characters; none when a
non-digit appears. -/
def digitsVal (cs : List Char) : Option Nat :=
  cs.foldl (fun acc c =>
    match acc with
    | none => none
    | some n => if c.isDigit then some (n * 10 + (c.toNat - 48)) else none)
    (some 0)

/-- Python `float(s)` on plain decimal literals: optional sign, then
digits with at most one decimal point and at least one digit overall
(exponents, infinities and surrounding whitespace are outside the
model). Returns none when the string is not such a literal, modelling
the ValueError the extractor catches. -/
def parseFloat (s : String) : Option ℚ :=
  let signed : ℚ × List Char :=
    match s.data with
    | '-' :: rest => (-1, rest)
    | '+' :: rest => (1, rest)
    | cs => (1, cs)
  let sign := signed.1
  let cs := signed.2
  let intPart := cs.takeWhile (fun c => c ≠ '.')
  let rest := cs.dropWhile (fun c => c ≠ '.')
  match rest with
  | [] =>
    if intPart = [] then none
    else (digitsVal intPart).map (fun n => sign * mkRat n 1)
  | _ :: frac =>
    if intPart = [] ∧ frac = [] then none
    else if frac.any (fun c => c = '.') then none
    else
      match digitsVal intPart, digitsVal frac with
      | some i, some f =>
        let p : Nat := 10 ^ frac.length
        some (sign * mkRat (i * p + f) p)
      | _, _ => none

/-- Raw JSON value found under an offer's `price` key: a number or a
string. -/
inductive PyPrice where
  | num (q : ℚ)
  | str (s : String)
deriving DecidableEq

/-- Python truthiness of the raw price value (the `if price:` guard):
zero and the empty string are falsy. -/
def PyPrice.truthy : PyPrice → Bool
  | .num q => q != 0
  | .str s => s != ""

/-- Evaluation of `float(str(price).replace(',', ''))`: a numeric JSON
value round-trips through its repr; a string is comma-stripped and
parsed. -/
def PyPrice.parse : PyPrice → Option ℚ
  | .num q => some q
  | .str s => parseFloat (stripCommas s)

/-- Offer object from JSON-LD, holding the two keys the extractor
reads. -/
structure OfferObj where
  price : Option PyPrice
  priceCurrency : Option String
deriving DecidableEq

/-- Value found under a Product's `offers` key: absent, a single offer
object, or a list of offer objects. -/
inductive OffersVal where
  | absent
  | one (o : OfferObj)
  | many (l : List OfferObj)
deriving DecidableEq

/-- Normalized result dict produced by an extraction strategy. -/
structure ExtractResult where
  price : ℚ
  currency : Option String
  source : String
deriving DecidableEq

/-- JSON-LD node as inspected by the extractor: its `@type` and
`offers` keys. -/
structure JsonLdItem where
  typ : Option String
  offers : OffersVal
deriving DecidableEq

/-- Top-level JSON-LD entry: a node, possibly carrying an `@graph` list
of nodes. -/
structure JsonLdEntry where
  item : JsonLdItem
  graph : Option (List JsonLdItem)
deriving DecidableEq

/-- extract_simple._extract_product_price: read `offers` (None when
falsy — absent or an empty list; the first element when a non-empty
list), then parse a present, truthy `price` value; a parse failure
yields no match. -/
def extract_product_price (product : JsonLdItem) : Option ExtractResult :=
  let offs : Option OfferObj :=
    match product.offers with
    | .absent => none
    | .one o => some o
    | .many [] => none
    | .many (o :: _) => some o
  match offs with
  | none => none
  | some o =>
    match o.price with
    | none => none
    | some pv =>
      if pv.truthy then
        match pv.parse with
        | some q =>
          some { price := q, currency := o.priceCurrency, source := "jsonld" }
        | none => none
      else none

/-- extract_simple.extract_from_jsonld: scan the JSON-LD entries in
order; on the first node typed Product (directly, or the first Product
inside an `@graph` list) return `extract_product_price` of it — the
Python `return` exits the whole scan even when that call yields no
match. -/
def extract_from_jsonld (entries : List JsonLdEntry) : Option ExtractResult :=
  match entries with
  | [] => none
  | e :: rest =>
    if e.item.typ = some "Product" then extract_product_price e.item
    else
      match e.graph with
      | some gitems =>
        match gitems.find? (fun gi => gi.typ == some "Product") with
        | some gi => extract_product_price gi
        | none => extract_from_jsonld rest
      | none => extract_from_jsonld rest

/-- Parsed DOM facts used by extract_from_dom, each list in document
order: `@content` values of elements with `itemprop="price"`, contents
of the two Open-Graph meta tags, and text contents of elements whose
class attribute contains "price" but not "compare". -/
structure DomDoc where
  itemprop_price : List String
  og_amount : List String
  og_currency : List String
  price_class_texts : List String
deriving DecidableEq

/-- Microdata step of extract_from_dom: parse the first
`itemprop="price"` content value; the result dict carries no
currency. -/
def microStep (d : DomDoc) : Option ExtractResult :=
  match d.itemprop_price with
  | [] => none
  | c :: _ =>
    match parseFloat (stripCommas c) with
    | some p => some { price := p, currency := none, source := "dom" }
    | none => none

/-- Open-Graph step of extract_from_dom: parse the first
`product:price:amount` content; the currency is the first
`product:price:currency` content when present. -/
def ogStep (d : DomDoc) : Option ExtractResult :=
  match d.og_amount with
  | [] => none
  | c :: _ =>
    match parseFloat (stripCommas c) with
    | some p => some { price := p, currency := d.og_currency.head?, source := "dom" }
    | none => none

/-- First match of the regex pattern (digit run, optional point, digit
run) in a comma-free character list, as searched by the heuristic
step. -/
def firstNumberToken (cs : List Char) : Option (List Char) :=
  match cs with
  | [] => none
  | c :: rest =>
    if c.isDigit then
      let ds := (c :: rest).takeWhile Char.isDigit
      let after := (c :: rest).dropWhile Char.isDigit
      match after with
      | '.' :: tail => some (ds ++ '.' :: tail.takeWhile Char.isDigit)
      | _ => some ds
    else firstNumberToken rest

/-- Heuristic step of extract_from_dom: for each price-class element's
stripped text with commas removed, take the first numeric token and
parse it; return on the first strictly positive value — a non-positive
or unparsable token lets the loop continue. -/
def heuristicScan (texts : List String) : Option ExtractResult :=
  match texts with
  | [] => none
  | t :: rest =>
    match firstNumberToken (stripCommas t.trim).data with
    | some tok =>
      match parseFloat (String.mk tok) with
      | some p =>
        if p > 0 then some { price := p, currency := none, source := "dom" }
        else heuristicScan rest
      | none => heuristicScan rest
    | none => heuristicScan rest

/-- extract_simple.extract_from_dom: microdata itemprop price, then the
Open-Graph meta tags, then the class-name heuristic; each failed or
unparsable step falls through to the next. -/
def extract_from_dom (d : DomDoc) : Option ExtractResult :=
  match microStep d with
  | some r => some r
  | none =>
    match ogStep d with
    | some r => some r
    | none => heuristicScan d.price_class_texts

/-- Parsed page content: the JSON-LD entries found by extruct plus the
DOM facts; fetching is external I/O, so the document is given. -/
structure PageDoc where
  jsonld : List JsonLdEntry
  dom : DomDoc
deriving DecidableEq

/-- extract_simple.extract_price: JSON-LD first, then the DOM chain;
none models the ValueError raised when every strategy fails. -/
def extract_price (doc : PageDoc) : Option ExtractResult :=
  match extract_from_jsonld doc.jsonld with
  | some r => some r
  | none => extract_from_dom doc.dom

/-- Characters of `urlparse(url).netloc`: the text between the scheme
separator and the next slash. -/
def netlocChars : List Char → List Char
  | ':' :: '/' :: '/' :: rest => rest.takeWhile (fun c => c ≠ '/')
  | _ :: rest => netlocChars rest
  | [] => []

/-- Retailer id derived in adapter_generic.create_snapshot: lowercased
netloc with a leading `www.` removed. -/
def retailerIdOf (url : String) : String :=
  let r := (String.mk (netlocChars url.data)).toLower
  if r.startsWith "www." then r.drop 4 else r

/-- Second half of the Python falsy `or` chain for the currency: the
product's preferred currency when present and non-empty, else the
system default CAD. -/
def preferredOrDefault (preferred : Option String) : String :=
  match preferred with
  | some c => if c ≠ "" then c else "CAD"
  | none => "CAD"

/-- Currency resolution of create_snapshot
(`price_data.get('currency') or product_spec.currency or 'CAD'`):
None and the empty string are falsy. -/
def fallbackCurrency (detected : Option String) (preferred : Option String) :
    String :=
  match detected with
  | some c => if c ≠ "" then c else preferredOrDefault preferred
  | none => preferredOrDefault preferred

/-- adapter_generic.create_snapshot: derive the retailer id from the
URL host, extract the price, resolve the currency through the falsy
`or` chain, force USD to CAD at the fixed 1.4 factor, and build the
snapshot with its signature; none models the propagated extraction
error. `now` is the timestamp default; the extractor result dicts never
carry `list_price` or `in_stock` keys, so those fields are None. -/
def create_snapshot (doc : PageDoc) (now : ℚ) (url : String)
    (product_spec : ProductSpec) : Option OfferSnapshot :=
  let retailer_id := retailerIdOf url
  match extract_price doc with
  | none => none
  | some price_data =>
    let currency0 := fallbackCurrency price_data.currency product_spec.currency
    let forced : String × ℚ :=
      if currency0 = "USD" then ("CAD", price_data.price * 1.4)
      else (currency0, price_data.price)
    some {
      product_id := product_spec.id
      retailer_id := retailer_id
      url := url
      ts := now
      price := forced.2
      currency := forced.1
      list_price := none
      in_stock := none
      parse_source := price_data.source
      raw_signature := generate_signature url forced.2 forced.1 none }

/-! ## Characterization lemmas -/

/-- Event built by detect_drop for a given previous price. -/
def dropEvent (snapshot : OfferSnapshot) (now last_price : ℚ) : PriceEvent :=
  let pct_drop :=
    if last_price > 0 then (last_price - snapshot.price) / last_price else 0
  { product_id := snapshot.product_id
    retailer_id := snapshot.retailer_id
    ts := now
    event_type := "drop"
    old_price := last_price
    new_price := snapshot.price
    pct_change := pct_drop
    reason := dropReason last_price snapshot.price pct_drop }

theorem detect_drop_some_iff (st : StorageState) (now : ℚ)
    (snapshot : OfferSnapshot) (min_abs min_pct : ℚ) (e : PriceEvent) :
    detect_drop st now snapshot min_abs min_pct = some e ↔
      ∃ last_price, get_last_price st snapshot.product_id = some last_price ∧
        last_price - snapshot.price ≥ min_abs ∧
        (if last_price > 0 then (last_price - snapshot.price) / last_price
          else 0) ≥ min_pct ∧
        check_recent_alert st now snapshot.product_id snapshot.price 12 = false ∧
        e = dropEvent snapshot now last_price := by
  unfold detect_drop
  cases hl : get_last_price st snapshot.product_id with
  | none => simp
  | some last =>
    simp only [Option.some.injEq]
    constructor
    · intro h
      by_cases hthr : last - snapshot.price ≥ min_abs ∧
          (if last > 0 then (last - snapshot.price) / last else 0) ≥ min_pct
      · rw [if_pos hthr] at h
        by_cases hal : check_recent_alert st now snapshot.product_id
            snapshot.price 12 = true
        · rw [if_pos hal] at h
          exact absurd h (by simp)
        · rw [if_neg hal] at h
          refine ⟨last, rfl, hthr.1, hthr.2, Bool.not_eq_true _ ▸ hal, ?_⟩
          cases h
          rfl
      · rw [if_neg hthr] at h
        exact absurd h (by simp)
    · rintro ⟨l, hl2, h1, h2, hdedup, he⟩
      obtain rfl : last = l := hl2
      rw [if_pos ⟨h1, h2⟩, if_neg (by rw [hdedup]; exact Bool.false_ne_true), he]
      rfl

theorem detect_drop_none_of_no_last (st : StorageState) (now : ℚ)
    (snapshot : OfferSnapshot) (min_abs min_pct : ℚ)
    (h : get_last_price st snapshot.product_id = none) :
    detect_drop st now snapshot min_abs min_pct = none := by
  unfold detect_drop
  rw [h]

/-! ## Concrete scenario material shared by several witnesses -/

/-- Snapshot literal used by the concrete scenarios. -/
def mkSnap (pid : String) (ts price : ℚ) : OfferSnapshot :=
  ⟨pid, "r", "u", ts, price, "CAD", none, none, "test", ""⟩

/-- Store holding a 100 and then a 95 reading for product p. -/
def stNinetyFive : StorageState :=
  ⟨[mkSnap "p" 1 100, mkSnap "p" 2 95], []⟩

/-- Store holding a 100 and then an 80 reading for product p. -/
def stEighty : StorageState :=
  ⟨[mkSnap "p" 1 100, mkSnap "p" 2 80], []⟩

theorem stEighty_last_price : get_last_price stEighty "p" = some 100 := by
  with_unfolding_all decide

theorem stEighty_no_recent_alert :
    check_recent_alert stEighty 1000 "p" 80 12 = false := by
  with_unfolding_all decide

/-- Event fired in the 100 → 80 scenario. -/
theorem stEighty_fires :
    detect_drop stEighty 1000 (mkSnap "p" 2 80) 10 (1/20) =
      some (dropEvent (mkSnap "p" 2 80) 1000 100) := by
  rw [detect_drop_some_iff]
  refine ⟨100, stEighty_last_price, by norm_num [mkSnap], ?_, ?_, rfl⟩
  · norm_num [mkSnap]
  · exact stEighty_no_recent_alert

/-! ## C1 -/

/-- C1: whenever detect_drop produces an event there is a stored
previous price with `absoluteDrop = previousPrice - currentPrice` at
least `min_abs` and `percentDrop = absoluteDrop / previousPrice` (zero
when the previous price is not positive) at least `min_pct`, and the
event records exactly those quantities; and in the example scenario
(previous 100, current 95, `min_abs` 3, `min_pct` 0.10) where only the
absolute threshold clears, no event is produced. -/
theorem detect_drop_requires_both_thresholds :
    (∀ st now snapshot min_abs min_pct e,
        detect_drop st now snapshot min_abs min_pct = some e →
        ∃ last_price,
          get_last_price st snapshot.product_id = some last_price ∧
          last_price - snapshot.price ≥ min_abs ∧
          (if last_price > 0 then (last_price - snapshot.price) / last_price
            else 0) ≥ min_pct ∧
          e.old_price = last_price ∧ e.new_price = snapshot.price ∧
          e.pct_change =
            (if last_price > 0 then (last_price - snapshot.price) / last_price
              else 0)) ∧
    detect_drop stNinetyFive 1000 (mkSnap "p" 2 95) 3 (1/10) = none := by
  constructor
  · intro st now snapshot min_abs min_pct e h
    obtain ⟨l, hl, h1, h2, _, he⟩ := (detect_drop_some_iff _ _ _ _ _ _).mp h
    exact ⟨l, hl, h1, h2, by rw [he]; rfl, by rw [he]; rfl, by rw [he]; rfl⟩
  · with_unfolding_all decide

/-- Witness for C1: in the 100 → 80 scenario with thresholds 10 and
0.05 an event fires, and the theorem recovers both threshold facts for
it. -/
theorem detect_drop_requires_both_thresholds_witness :
    ∃ last_price,
      get_last_price stEighty "p" = some last_price ∧
      last_price - (mkSnap "p" 2 80).price ≥ 10 ∧
      (if last_price > 0 then
          (last_price - (mkSnap "p" 2 80).price) / last_price
        else 0) ≥ 1/20 ∧
      (dropEvent (mkSnap "p" 2 80) 1000 100).old_price = last_price ∧
      (dropEvent (mkSnap "p" 2 80) 1000 100).new_price = (mkSnap "p" 2 80).price ∧
      (dropEvent (mkSnap "p" 2 80) 1000 100).pct_change =
        (if last_price > 0 then
            (last_price - (mkSnap "p" 2 80).price) / last_price
          else 0) :=
  detect_drop_requires_both_thresholds.1 stEighty 1000 (mkSnap "p" 2 80)
    10 (1/20) (dropEvent (mkSnap "p" 2 80) 1000 100) stEighty_fires

/-! ## C6 -/

/-- Store holding two equal 100 readings for product p. -/
def stFlat : StorageState :=
  ⟨[mkSnap "p" 1 100, mkSnap "p" 2 100], []⟩

/-- C6 counterexample: with caller-passed thresholds 0 and 0 and an
unchanged price of 100, detect_drop produces (and process_snapshot
would persist) an event whose new price equals its old price, so the
invariant `newPrice < oldPrice` does not hold over all threshold values
the caller may pass. -/
theorem drop_event_not_always_strict :
    detect_drop stFlat 1000 (mkSnap "p" 2 100) 0 0 =
      some (dropEvent (mkSnap "p" 2 100) 1000 100) ∧
    ¬ (dropEvent (mkSnap "p" 2 100) 1000 100).new_price <
        (dropEvent (mkSnap "p" 2 100) 1000 100).old_price := by
  constructor
  · rw [detect_drop_some_iff]
    exact ⟨100, by with_unfolding_all decide, by norm_num [mkSnap],
      by norm_num [mkSnap], by with_unfolding_all decide, rfl⟩
  · simp [dropEvent, mkSnap]

/-- C6 amended: whenever the absolute threshold passed by the caller is
positive (every configured threshold is, the default being 20), every
event detect_drop creates satisfies `newPrice < oldPrice`. -/
theorem drop_event_strict_of_pos_min_abs (st : StorageState) (now : ℚ)
    (snapshot : OfferSnapshot) (min_abs min_pct : ℚ) (e : PriceEvent)
    (hpos : 0 < min_abs)
    (h : detect_drop st now snapshot min_abs min_pct = some e) :
    e.new_price < e.old_price := by
  obtain ⟨l, _, h1, _, _, he⟩ := (detect_drop_some_iff _ _ _ _ _ _).mp h
  rw [he]
  show snapshot.price < l
  linarith

/-- Witness for the amended C6: in the 100 → 80 scenario with positive
threshold 10 the fired event satisfies the invariant. -/
theorem drop_event_strict_of_pos_min_abs_witness :
    (dropEvent (mkSnap "p" 2 80) 1000 100).new_price <
      (dropEvent (mkSnap "p" 2 80) 1000 100).old_price :=
  drop_event_strict_of_pos_min_abs stEighty 1000 (mkSnap "p" 2 80) 10 (1/20)
    (dropEvent (mkSnap "p" 2 80) 1000 100) (by norm_num) stEighty_fires

/-! ## C7 -/

/-- Product spec with CAD preference used by the adapter scenarios. -/
def specCAD : ProductSpec := ⟨"P1", [], some "CAD"⟩

/-- Page whose JSON-LD offer prices the product at 10.00 EUR. -/
def docEUR : PageDoc :=
  ⟨[⟨⟨some "Product", OffersVal.one ⟨some (PyPrice.str "10.00"), some "EUR"⟩⟩,
      none⟩],
    ⟨[], [], [], []⟩⟩

/-- C7 counterexample: a detected EUR — a currency other than the CAD
default — is not forced to the default and its price is not converted:
the snapshot keeps currency EUR and price 10. Only USD is forced. -/
theorem create_snapshot_keeps_eur :
    (create_snapshot docEUR 0 "https://www.example.com/p" specCAD).map
        (fun s => (s.currency, s.price)) = some ("EUR", 10) ∧
    "EUR" ≠ "CAD" := by
  constructor
  · with_unfolding_all decide
  · decide

/-- C7 amended: when no currency (or an empty one) is detected the
snapshot currency falls back to the product's preferred currency and
then to the CAD default; a resolved currency equal to USD — and only
USD — is forced to CAD with the price multiplied by the fixed 1.4
factor, any other resolved currency being kept with the price
unchanged. -/
theorem create_snapshot_currency_policy :
    (∀ pref, fallbackCurrency none pref = preferredOrDefault pref) ∧
    (∀ pref c, c ≠ "" → fallbackCurrency (some c) pref = c) ∧
    preferredOrDefault none = "CAD" ∧
    (∀ pref, preferredOrDefault (some "") = "CAD" ∧
      (pref ≠ "" → preferredOrDefault (some pref) = pref)) ∧
    (∀ doc now url spec r, extract_price doc = some r →
      fallbackCurrency r.currency spec.currency = "USD" →
      (create_snapshot doc now url spec).map (fun s => (s.currency, s.price)) =
        some ("CAD", r.price * 1.4)) ∧
    (∀ doc now url spec r, extract_price doc = some r →
      fallbackCurrency r.currency spec.currency ≠ "USD" →
      (create_snapshot doc now url spec).map (fun s => (s.currency, s.price)) =
        some (fallbackCurrency r.currency spec.currency, r.price)) := by
  refine ⟨fun _ => rfl, fun pref c hc => ?_, rfl, fun pref => ⟨rfl, fun h => ?_⟩,
    fun doc now url spec r hr husd => ?_, fun doc now url spec r hr husd => ?_⟩
  · simp [fallbackCurrency, hc]
  · simp [preferredOrDefault, h]
  · unfold create_snapshot
    rw [hr]
    simp [husd]
  · unfold create_snapshot
    rw [hr]
    simp [husd]

/-- Page whose JSON-LD offer prices the product at 10.00 USD. -/
def docUSD : PageDoc :=
  ⟨[⟨⟨some "Product", OffersVal.one ⟨some (PyPrice.str "10.00"), some "USD"⟩⟩,
      none⟩],
    ⟨[], [], [], []⟩⟩

/-- Witness for the amended C7: for a detected USD price of 10 the
snapshot is forced to CAD at price 14. -/
theorem create_snapshot_currency_policy_witness :
    (create_snapshot docUSD 0 "https://www.example.com/p" specCAD).map
        (fun s => (s.currency, s.price)) = some ("CAD", 10 * 1.4) :=
  create_snapshot_currency_policy.2.2.2.2.1 docUSD 0 "https://www.example.com/p"
    specCAD ⟨10, some "USD", "jsonld"⟩ (by with_unfolding_all decide)
    (by with_unfolding_all decide)

/-! ## C8 -/

/-- Page whose JSON-LD offer carries the truthy string price
"-10.00". -/
def docNeg : PageDoc :=
  ⟨[⟨⟨some "Product", OffersVal.one ⟨some (PyPrice.str "-10.00"), some "CAD"⟩⟩,
      none⟩],
    ⟨[], [], [], []⟩⟩

/-- C8 counterexample: the structured-data strategy accepts the truthy
string price "-10.00", so the pipeline produces an observation with a
non-positive price. -/
theorem pipeline_price_not_always_positive :
    (extract_price docNeg).map (fun r => (r.price, r.source)) =
      some (-10, "jsonld") ∧
    (create_snapshot docNeg 0 "https://shop.example.com/p" specCAD).map
        (fun s => s.price) = some (-10) ∧
    ¬ (0 : ℚ) < -10 := by
  refine ⟨by with_unfolding_all decide, by with_unfolding_all decide, by norm_num⟩

/-- C8 amended: only the heuristic strategy guarantees a strictly
positive price — every result it returns satisfies `0 < price` — while
the structured-data, micro-annotation and Open-Graph strategies perform
no positivity check and can yield non-positive prices. -/
theorem heuristic_accepts_only_positive (texts : List String)
    (r : ExtractResult) (h : heuristicScan texts = some r) : 0 < r.price := by
  induction texts with
  | nil => simp [heuristicScan] at h
  | cons t rest ih =>
    rw [heuristicScan] at h
    rcases htok : firstNumberToken (stripCommas t.trim).data with _ | tok
    · rw [htok] at h
      exact ih h
    · simp only [htok] at h
      rcases hp : parseFloat (String.mk tok) with _ | p
      · simp only [hp] at h
        exact ih h
      · simp only [hp] at h
        by_cases hpos : p > 0
        · rw [if_pos hpos] at h
          cases h
          exact hpos
        · rw [if_neg hpos] at h
          exact ih h

/-- Witness for the amended C8: the heuristic accepts the element text
"$5.00" and the returned price 5 is strictly positive. -/
theorem heuristic_accepts_only_positive_witness :
    0 < (ExtractResult.mk 5 none "dom").price :=
  heuristic_accepts_only_positive ["$5.00"] (ExtractResult.mk 5 none "dom")
    (by with_unfolding_all decide)

/-! ## C10 -/

theorem foldl_min_le_init (l : List ℚ) : ∀ a : ℚ, l.foldl min a ≤ a := by
  induction l with
  | nil => intro a; simp
  | cons b l ih =>
    intro a
    exact le_trans (ih (min a b)) (min_le_left a b)

theorem foldl_min_le_mem (l : List ℚ) :
    ∀ a x : ℚ, x ∈ l → l.foldl min a ≤ x := by
  induction l with
  | nil =>
    intro a x hx
    cases hx
  | cons b l ih =>
    intro a x hx
    rcases List.mem_cons.mp hx with rfl | hx
    · exact le_trans (foldl_min_le_init l (min a x)) (min_le_right a x)
    · exact ih (min a b) x hx

/-- C10: for a product with at least one stored snapshot both
aggregate queries answer, and the minimum over all stored prices is at
most the newest row's price. -/
theorem lowest_le_current (st : StorageState) (pid : String)
    (h : snapshotsFor st pid ≠ []) :
    ∃ lo cur, get_lowest_price st pid = some lo ∧
      get_current_price st pid = some cur ∧ lo ≤ cur := by
  rcases hrows : (snapshotsFor st pid).map OfferSnapshot.price with _ | ⟨p, ps⟩
  · exact absurd (List.map_eq_nil_iff.mp hrows) h
  · have hperm : List.Perm (rowsDesc st pid) (snapshotsFor st pid) :=
      List.perm_insertionSort tsDesc (snapshotsFor st pid)
    rcases hsort : rowsDesc st pid with _ | ⟨a, rest⟩
    · rw [hsort] at hperm
      exact absurd hperm.symm.eq_nil h
    · refine ⟨ps.foldl min p, a.price, ?_, ?_, ?_⟩
      · rw [get_lowest_price, hrows]
      · rw [get_current_price, hsort]
        rfl
      · have ha : a ∈ snapshotsFor st pid := by
          refine hperm.mem_iff.mp ?_
          rw [hsort]
          exact List.mem_cons_self a rest
        have hmem : a.price ∈ (snapshotsFor st pid).map OfferSnapshot.price :=
          List.mem_map_of_mem _ ha
        rw [hrows] at hmem
        rcases List.mem_cons.mp hmem with hp | hp
        · rw [hp]
          exact foldl_min_le_init ps p
        · exact foldl_min_le_mem ps p a.price hp

/-- Witness for C10 in the 100 then 80 store: both queries answer and
the minimum is at most the current price. -/
theorem lowest_le_current_witness :
    ∃ lo cur, get_lowest_price stEighty "p" = some lo ∧
      get_current_price stEighty "p" = some cur ∧ lo ≤ cur :=
  lowest_le_current stEighty "p" (by with_unfolding_all decide)

/-! ## C3 -/

theorem rowsDesc_length (st : StorageState) (pid : String) :
    (rowsDesc st pid).length = (snapshotsFor st pid).length :=
  (List.perm_insertionSort tsDesc (snapshotsFor st pid)).length_eq

theorem get_last_price_none_iff (st : StorageState) (pid : String) :
    get_last_price st pid = none ↔ (snapshotsFor st pid).length < 2 := by
  rw [get_last_price, Option.map_eq_none', List.get?_eq_none, rowsDesc_length]
  omega

/-- C3: get_last_price answers none exactly when the product has fewer
than two stored observations; with at least two, the timestamp-
descending ordering starts with a newest row `a` followed by the
returned row `b`, which is newest among the remaining rows — the
second-most-recent observation; and for a product with exactly one
stored observation detect_drop never produces an event. -/
theorem get_last_price_skips_newest :
    (∀ st pid, get_last_price st pid = none ↔
      (snapshotsFor st pid).length < 2) ∧
    (∀ st pid, 2 ≤ (snapshotsFor st pid).length →
      ∃ a b l2, rowsDesc st pid = a :: b :: l2 ∧
        get_last_price st pid = some b.price ∧
        b ∈ snapshotsFor st pid ∧ b.ts ≤ a.ts ∧
        (∀ s ∈ snapshotsFor st pid, s.ts ≤ a.ts) ∧
        (∀ s ∈ l2, s.ts ≤ b.ts)) ∧
    (∀ st now snapshot min_abs min_pct,
      (snapshotsFor st snapshot.product_id).length = 1 →
      detect_drop st now snapshot min_abs min_pct = none) := by
  refine ⟨get_last_price_none_iff, ?_, ?_⟩
  · intro st pid hlen
    have hlen2 : 2 ≤ (rowsDesc st pid).length := by
      rw [rowsDesc_length]
      exact hlen
    have hsorted : List.Sorted tsDesc (rowsDesc st pid) :=
      List.sorted_insertionSort tsDesc (snapshotsFor st pid)
    have hperm : List.Perm (rowsDesc st pid) (snapshotsFor st pid) :=
      List.perm_insertionSort tsDesc (snapshotsFor st pid)
    rcases hsort : rowsDesc st pid with _ | ⟨a, _ | ⟨b, l2⟩⟩
    · rw [hsort] at hlen2
      simp at hlen2
    · rw [hsort] at hlen2
      simp at hlen2
    · rw [hsort] at hsorted hperm
      have hab : tsDesc a b := (List.pairwise_cons.mp hsorted).1 b
        (List.mem_cons_self b l2)
      have hbtail : ∀ s ∈ l2, tsDesc b s :=
        fun s hs => (List.pairwise_cons.mp (List.pairwise_cons.mp hsorted).2).1 s hs
      refine ⟨a, b, l2, rfl, ?_, ?_, hab, ?_, hbtail⟩
      · rw [get_last_price, hsort]
        rfl
      · exact hperm.mem_iff.mp
          (List.mem_cons_of_mem a (List.mem_cons_self b l2))
      · intro s hs
        rcases List.mem_cons.mp (hperm.symm.mem_iff.mp hs) with h1 | h1
        · exact le_of_eq (congrArg OfferSnapshot.ts h1)
        · exact (List.pairwise_cons.mp hsorted).1 s h1
  · intro st now snapshot min_abs min_pct h1
    refine detect_drop_none_of_no_last st now snapshot min_abs min_pct ?_
    rw [get_last_price_none_iff, h1]
    omega

/-- Store holding exactly one observation, for product q. -/
def stOne : StorageState := ⟨[mkSnap "q" 1 50], []⟩

/-- Witness for C3: with one stored observation no event fires even at
zero thresholds, and in the two-observation 100 then 80 store the
second-most-recent characterization is realized. -/
theorem get_last_price_skips_newest_witness :
    detect_drop stOne 1000 (mkSnap "q" 2 40) 0 0 = none ∧
    (∃ a b l2, rowsDesc stEighty "p" = a :: b :: l2 ∧
      get_last_price stEighty "p" = some b.price ∧
      b ∈ snapshotsFor stEighty "p" ∧ b.ts ≤ a.ts ∧
      (∀ s ∈ snapshotsFor stEighty "p", s.ts ≤ a.ts) ∧
      (∀ s ∈ l2, s.ts ≤ b.ts)) :=
  ⟨get_last_price_skips_newest.2.2 stOne 1000 (mkSnap "q" 2 40) 0 0
      (by with_unfolding_all decide),
    get_last_price_skips_newest.2.1 stEighty "p" (by with_unfolding_all decide)⟩

/-! ## C2 -/

theorem extract_product_price_source (p : JsonLdItem) (r : ExtractResult)
    (h : extract_product_price p = some r) : r.source = "jsonld" := by
  unfold extract_product_price at h
  have key : ∀ (o : OfferObj),
      (match o.price with
        | none => none
        | some pv =>
          if pv.truthy = true then
            match pv.parse with
            | some q =>
              some { price := q, currency := o.priceCurrency, source := "jsonld" }
            | none => none
          else none) = some r → r.source = "jsonld" := by
    intro o ho
    rcases hp : o.price with _ | pv
    · simp [hp] at ho
    · simp only [hp] at ho
      by_cases ht : pv.truthy = true
      · rw [if_pos ht] at ho
        rcases hq : pv.parse with _ | q
        · simp [hq] at ho
        · simp only [hq, Option.some.injEq] at ho
          rw [← ho]
      · rw [if_neg ht] at ho
        exact absurd ho (by simp)
  rcases hoffs : p.offers with _ | o | ll
  · rw [hoffs] at h
    cases h
  · rw [hoffs] at h
    exact key o h
  · rcases ll with _ | ⟨o, tl⟩ <;> rw [hoffs] at h
    · cases h
    · exact key o h

theorem extract_from_jsonld_source (entries : List JsonLdEntry)
    (r : ExtractResult) (h : extract_from_jsonld entries = some r) :
    r.source = "jsonld" := by
  induction entries with
  | nil => exact absurd h (by simp [extract_from_jsonld])
  | cons e rest ih =>
    rw [extract_from_jsonld] at h
    split at h
    · exact extract_product_price_source _ _ h
    · split at h
      · split at h
        · exact extract_product_price_source _ _ h
        · exact ih h
      · exact ih h

/-- C2: extract_price runs the strategies in strict priority order —
first JSON-LD structured data, then inside the DOM chain the
`itemprop="price"` micro-annotation, then the Open-Graph meta tags,
then the class-name heuristic — returning the first successful match
(a JSON-LD success is returned as is and is tagged `jsonld`), and it
fails exactly when all four strategies yield no match. -/
theorem extract_price_priority :
    (∀ doc r, extract_from_jsonld doc.jsonld = some r →
      extract_price doc = some r ∧ r.source = "jsonld") ∧
    (∀ doc, extract_from_jsonld doc.jsonld = none →
      extract_price doc = extract_from_dom doc.dom) ∧
    (∀ d r, microStep d = some r → extract_from_dom d = some r) ∧
    (∀ d r, microStep d = none → ogStep d = some r →
      extract_from_dom d = some r) ∧
    (∀ d, microStep d = none → ogStep d = none →
      extract_from_dom d = heuristicScan d.price_class_texts) ∧
    (∀ doc, extract_price doc = none ↔
      (extract_from_jsonld doc.jsonld = none ∧ microStep doc.dom = none ∧
        ogStep doc.dom = none ∧
        heuristicScan doc.dom.price_class_texts = none)) := by
  have hdom : ∀ d, extract_from_dom d =
      match microStep d with
      | some r => some r
      | none =>
        match ogStep d with
        | some r => some r
        | none => heuristicScan d.price_class_texts := fun d => rfl
  refine ⟨?_, ?_, ?_, ?_, ?_, ?_⟩
  · intro doc r h
    refine ⟨?_, extract_from_jsonld_source _ _ h⟩
    rw [extract_price, h]
  · intro doc h
    rw [extract_price, h]
  · intro d r h
    rw [hdom, h]
  · intro d r h1 h2
    rw [hdom, h1, h2]
  · intro d h1 h2
    rw [hdom, h1, h2]
  · intro doc
    rw [extract_price, hdom]
    cases hj : extract_from_jsonld doc.jsonld with
    | some r => simp [hj]
    | none =>
      cases hm : microStep doc.dom with
      | some r => simp
      | none =>
        cases ho : ogStep doc.dom with
        | some r => simp
        | none => simp

/-- Page carrying both a JSON-LD product offer at 99.99 and an itemprop
price annotation at 49.99. -/
def docBoth : PageDoc :=
  ⟨[⟨⟨some "Product", OffersVal.one ⟨some (PyPrice.str "99.99"), some "CAD"⟩⟩,
      none⟩],
    ⟨["49.99"], [], [], []⟩⟩

/-- Witness for C2: on the page with both markups the extractor returns
the structured-data price 99.99 tagged jsonld, not the DOM price. -/
theorem extract_price_priority_witness :
    extract_price docBoth = some ⟨mkRat 9999 100, some "CAD", "jsonld"⟩ ∧
    (ExtractResult.mk (mkRat 9999 100) (some "CAD") "jsonld").source = "jsonld" :=
  extract_price_priority.1 docBoth ⟨mkRat 9999 100, some "CAD", "jsonld"⟩
    (by simp +decide [extract_from_jsonld, extract_product_price, docBoth,
      PyPrice.truthy, PyPrice.parse, parseFloat, stripCommas, digitsVal])

/-! ## C4 -/

theorem check_recent_alert_iff (st : StorageState) (now : ℚ) (pid : String)
    (price hours : ℚ) :
    check_recent_alert st now pid price hours = true ↔
      ∃ a ∈ st.alerts, a.product_id = pid ∧ a.new_price = price ∧
        now - 3600 * hours < a.ts := by
  unfold check_recent_alert
  simp [List.any_eq_true, and_assoc]

theorem detect_drop_none_of_recent (st : StorageState) (now : ℚ)
    (snapshot : OfferSnapshot) (min_abs min_pct : ℚ)
    (h : check_recent_alert st now snapshot.product_id snapshot.price 12 = true) :
    detect_drop st now snapshot min_abs min_pct = none := by
  unfold detect_drop
  cases hl : get_last_price st snapshot.product_id with
  | none => rfl
  | some last => simp [h]

/-- C4: check_recent_alert answers true exactly when some stored alert
has the same product and new price and a timestamp strictly inside the
trailing window (3600·hours seconds before `now`, 12 hours in the
engine); while it answers true a triggered drop yields no event and no
alert row is persisted; and once every matching alert has aged past the
window a qualifying drop fires again. -/
theorem dedup_window_guard :
    (∀ st now pid price hours,
      check_recent_alert st now pid price hours = true ↔
        ∃ a ∈ st.alerts, a.product_id = pid ∧ a.new_price = price ∧
          now - 3600 * hours < a.ts) ∧
    (∀ st now snapshot min_abs min_pct,
      check_recent_alert st now snapshot.product_id snapshot.price 12 = true →
      detect_drop st now snapshot min_abs min_pct = none) ∧
    (∀ st now snapshot min_abs min_pct,
      check_recent_alert (save_snapshot st snapshot) now snapshot.product_id
        snapshot.price 12 = true →
      (process_snapshot st now snapshot min_abs min_pct).2 = none ∧
      (process_snapshot st now snapshot min_abs min_pct).1.alerts = st.alerts) ∧
    (∀ st now snapshot min_abs min_pct last_price,
      get_last_price st snapshot.product_id = some last_price →
      last_price - snapshot.price ≥ min_abs →
      (if last_price > 0 then (last_price - snapshot.price) / last_price
        else 0) ≥ min_pct →
      (∀ a ∈ st.alerts, a.product_id = snapshot.product_id →
        a.new_price = snapshot.price → a.ts ≤ now - 3600 * 12) →
      detect_drop st now snapshot min_abs min_pct =
        some (dropEvent snapshot now last_price)) := by
  refine ⟨check_recent_alert_iff, detect_drop_none_of_recent, ?_, ?_⟩
  · intro st now snapshot min_abs min_pct h
    have hd := detect_drop_none_of_recent (save_snapshot st snapshot) now
      snapshot min_abs min_pct h
    have hps : process_snapshot st now snapshot min_abs min_pct =
        match detect_drop (save_snapshot st snapshot) now snapshot min_abs
            min_pct with
        | some ev => (save_alert (save_snapshot st snapshot) ev, some ev)
        | none => (save_snapshot st snapshot, none) := rfl
    rw [hps, hd]
    exact ⟨rfl, rfl⟩
  · intro st now snapshot min_abs min_pct last_price hl h1 h2 hold
    rw [detect_drop_some_iff]
    refine ⟨last_price, hl, h1, h2, ?_, rfl⟩
    by_contra hne
    have htrue : check_recent_alert st now snapshot.product_id
        snapshot.price 12 = true := by
      cases hc : check_recent_alert st now snapshot.product_id snapshot.price 12
      · exact absurd hc hne
      · rfl
    obtain ⟨a, ha, hpid, hprice, hts⟩ :=
      (check_recent_alert_iff st now snapshot.product_id snapshot.price 12).mp
        htrue
    exact absurd (hold a ha hpid hprice) (not_le.mpr hts)

/-- Alert row persisted in the 100 → 80 scenario at time 1000. -/
def evEighty : PriceEvent := dropEvent (mkSnap "p" 2 80) 1000 100

/-- Store with readings 100 and 80 and the alert already recorded at
time 1000. -/
def stAlerted : StorageState :=
  ⟨[mkSnap "p" 1 100, mkSnap "p" 2 80], [evEighty]⟩

/-- Witness for C4: one hour after the alert (now 4600) the same drop
is suppressed; thirteen hours after it (now 47800, past the 12-hour
window) it fires again. -/
theorem dedup_window_guard_witness :
    detect_drop stAlerted 4600 (mkSnap "p" 2 80) 10 (1/20) = none ∧
    detect_drop stAlerted 47800 (mkSnap "p" 2 80) 10 (1/20) =
      some (dropEvent (mkSnap "p" 2 80) 47800 100) := by
  constructor
  · refine dedup_window_guard.2.1 stAlerted 4600 (mkSnap "p" 2 80) 10 (1/20) ?_
    rw [check_recent_alert_iff]
    refine ⟨evEighty, by simp [stAlerted], rfl, rfl, by norm_num [evEighty,
      dropEvent, mkSnap]⟩
  · refine dedup_window_guard.2.2.2 stAlerted 47800 (mkSnap "p" 2 80) 10 (1/20)
      100 (by with_unfolding_all decide) (by norm_num [mkSnap])
      (by norm_num [mkSnap]) ?_
    intro a ha _ _
    have : a = evEighty := by simpa [stAlerted] using ha
    rw [this]
    norm_num [evEighty, dropEvent, mkSnap]

/-! ## C9 -/

theorem dropReason_data (l c p : ℚ) :
    (dropReason l c p).data =
      "last ".data ++ ((fmt2 l).data ++ (" → ".data ++ ((fmt2 c).data ++
        (" (-".data ++ ((fmt1 (p * 100)).data ++ "%)".data))))) := by
  simp [dropReason, String.data_append]

theorem dropReason_infix_left (l c p : ℚ) :
    List.IsInfix (fmt2 l).data (dropReason l c p).data := by
  rw [dropReason_data]
  refine ⟨"last ".data, " → ".data ++ ((fmt2 c).data ++
    (" (-".data ++ ((fmt1 (p * 100)).data ++ "%)".data))), ?_⟩
  simp [List.append_assoc]

theorem dropReason_infix_right (l c p : ℚ) :
    List.IsInfix (fmt2 c).data (dropReason l c p).data := by
  rw [dropReason_data]
  refine ⟨"last ".data ++ ((fmt2 l).data ++ " → ".data),
    " (-".data ++ ((fmt1 (p * 100)).data ++ "%)".data), ?_⟩
  simp [List.append_assoc]

/-- C9: when the trigger condition holds on the updated store and the
dedup guard is off, process_snapshot builds the drop event, persists it
as a new alert row, and returns it; its reason string is the formatted
`last OLD → NEW (-PCT%)` summary and contains the two-decimal renderings
of the old and the new price; and process_snapshot returns none exactly
when the call persisted no alert. -/
theorem process_snapshot_persists_event :
    (∀ st now snapshot min_abs min_pct last_price,
      get_last_price (save_snapshot st snapshot) snapshot.product_id =
        some last_price →
      last_price - snapshot.price ≥ min_abs →
      (if last_price > 0 then (last_price - snapshot.price) / last_price
        else 0) ≥ min_pct →
      check_recent_alert (save_snapshot st snapshot) now snapshot.product_id
        snapshot.price 12 = false →
      ∃ e, process_snapshot st now snapshot min_abs min_pct =
          (save_alert (save_snapshot st snapshot) e, some e) ∧
        (process_snapshot st now snapshot min_abs min_pct).1.alerts =
          st.alerts ++ [e] ∧
        e.old_price = last_price ∧ e.new_price = snapshot.price ∧
        e.reason = dropReason last_price snapshot.price
          (if last_price > 0 then (last_price - snapshot.price) / last_price
            else 0) ∧
        List.IsInfix (fmt2 last_price).data e.reason.data ∧
        List.IsInfix (fmt2 snapshot.price).data e.reason.data) ∧
    (∀ st now snapshot min_abs min_pct,
      (process_snapshot st now snapshot min_abs min_pct).2 = none ↔
        (process_snapshot st now snapshot min_abs min_pct).1.alerts =
          st.alerts) := by
  constructor
  · intro st now snapshot min_abs min_pct last_price hl h1 h2 hd
    have hfire : detect_drop (save_snapshot st snapshot) now snapshot
        min_abs min_pct = some (dropEvent snapshot now last_price) := by
      rw [detect_drop_some_iff]
      exact ⟨last_price, hl, h1, h2, hd, rfl⟩
    have hps : process_snapshot st now snapshot min_abs min_pct =
        match detect_drop (save_snapshot st snapshot) now snapshot min_abs
            min_pct with
        | some ev => (save_alert (save_snapshot st snapshot) ev, some ev)
        | none => (save_snapshot st snapshot, none) := rfl
    refine ⟨dropEvent snapshot now last_price, ?_, ?_, rfl, rfl, rfl,
      dropReason_infix_left _ _ _, dropReason_infix_right _ _ _⟩
    · rw [hps, hfire]
    · rw [hps, hfire]
      rfl
  · intro st now snapshot min_abs min_pct
    have hps : process_snapshot st now snapshot min_abs min_pct =
        match detect_drop (save_snapshot st snapshot) now snapshot min_abs
            min_pct with
        | some ev => (save_alert (save_snapshot st snapshot) ev, some ev)
        | none => (save_snapshot st snapshot, none) := rfl
    rw [hps]
    cases hdet : detect_drop (save_snapshot st snapshot) now snapshot
        min_abs min_pct with
    | none => simp [save_snapshot]
    | some ev =>
      constructor
      · intro h
        exact absurd h (by simp)
      · intro h
        exfalso
        have hlen := congrArg List.length h
        simp [save_alert, save_snapshot] at hlen


/-- Store holding only the 100 reading, before the 80 snapshot is
processed. -/
def stPre : StorageState := ⟨[mkSnap "p" 1 100], []⟩

/-- Witness for C9: processing the 80 snapshot against the stored 100
persists and returns an event whose reason is the formatted summary
containing "100.00" and "80.00". -/
theorem process_snapshot_persists_event_witness :
    (∃ e, process_snapshot stPre 1000 (mkSnap "p" 2 80) 10 (1/20) =
        (save_alert (save_snapshot stPre (mkSnap "p" 2 80)) e, some e) ∧
      (process_snapshot stPre 1000 (mkSnap "p" 2 80) 10 (1/20)).1.alerts =
        stPre.alerts ++ [e] ∧
      e.old_price = 100 ∧ e.new_price = (mkSnap "p" 2 80).price ∧
      e.reason = dropReason 100 (mkSnap "p" 2 80).price
        (if (100:ℚ) > 0 then ((100:ℚ) - (mkSnap "p" 2 80).price) / 100
          else 0) ∧
      List.IsInfix (fmt2 100).data e.reason.data ∧
      List.IsInfix (fmt2 (mkSnap "p" 2 80).price).data e.reason.data) ∧
    fmt2 100 = "100.00" ∧ fmt2 (mkSnap "p" 2 80).price = "80.00" := by
  refine ⟨process_snapshot_persists_event.1 stPre 1000 (mkSnap "p" 2 80)
    10 (1/20) 100 stEighty_last_price (by norm_num [mkSnap])
    (by norm_num [mkSnap]) stEighty_no_recent_alert, ?_, ?_⟩
  · with_unfolding_all decide
  · with_unfolding_all decide

/-! ## C5: injectivity of the signature preimage renderings -/

theorem digitToChar_inj :
    ∀ a, a < 10 → ∀ b, b < 10 → digitToChar a = digitToChar b → a = b := by
  decide

theorem digitToChar_digit : ∀ d, d < 10 → (digitToChar d).isDigit = true := by
  decide

theorem natDigits_lt (n : Nat) : ∀ d ∈ natDigits n, d < 10 := by
  rw [natDigits_eq_digits]
  intro d hd
  exact Nat.digits_lt_base (by norm_num) hd

theorem map_digitToChar_inj :
    ∀ (l1 l2 : List Nat), (∀ x ∈ l1, x < 10) → (∀ x ∈ l2, x < 10) →
      l1.map digitToChar = l2.map digitToChar → l1 = l2 := by
  intro l1
  induction l1 with
  | nil =>
    intro l2 _ _ h
    cases l2 with
    | nil => rfl
    | cons b bs => simp at h
  | cons a l ih =>
    intro l2 h1 h2 h
    cases l2 with
    | nil => simp at h
    | cons b l2t =>
      simp only [List.map_cons, List.cons.injEq] at h
      have ha := h1 a (List.mem_cons_self a l)
      have hb := h2 b (List.mem_cons_self b l2t)
      obtain rfl : a = b := digitToChar_inj a ha b hb h.1
      rw [ih l2t (fun x hx => h1 x (List.mem_cons_of_mem _ hx))
        (fun x hx => h2 x (List.mem_cons_of_mem _ hx)) h.2]

theorem natRepr_chars_digit (n : Nat) :
    ∀ c ∈ (natRepr n).data, c.isDigit = true := by
  intro c hc
  rw [natRepr] at hc
  by_cases h0 : n = 0
  · rw [if_pos h0] at hc
    have : c = '0' := by simpa using hc
    rw [this]
    decide
  · rw [if_neg h0] at hc
    have hc2 : c ∈ ((natDigits n).map digitToChar).reverse := hc
    rw [List.mem_reverse] at hc2
    obtain ⟨d, hd, rfl⟩ := List.mem_map.mp hc2
    exact digitToChar_digit d (natDigits_lt n d hd)

theorem natRepr_ne_nil (n : Nat) : (natRepr n).data ≠ [] := by
  rw [natRepr]
  by_cases h0 : n = 0
  · rw [if_pos h0]
    decide
  · rw [if_neg h0]
    have hne : natDigits n ≠ [] := by
      rw [natDigits_eq_digits]
      exact Nat.digits_ne_nil_iff_ne_zero.mpr h0
    simpa using hne

theorem natRepr_eq_zero_arg (n : Nat) (h : natRepr n = natRepr 0) : n = 0 := by
  by_contra hn
  rw [natRepr, if_neg hn, natRepr, if_pos rfl] at h
  have hl : ((natDigits n).map digitToChar).reverse = ['0'] :=
    congrArg String.data h
  have hmap : (natDigits n).map digitToChar = ['0'] := by
    have := congrArg List.reverse hl
    rwa [List.reverse_reverse] at this
  have hdig : natDigits n = [0] :=
    map_digitToChar_inj (natDigits n) [0] (natDigits_lt n)
      (by intro x hx; simp at hx; omega) (by rw [hmap]; rfl)
  have hofd : n = Nat.ofDigits 10 (Nat.digits 10 n) :=
    (Nat.ofDigits_digits 10 n).symm
  rw [← natDigits_eq_digits, hdig] at hofd
  simp [Nat.ofDigits] at hofd
  exact hn hofd

theorem natRepr_inj : ∀ m n : Nat, natRepr m = natRepr n → m = n := by
  intro m n h
  by_cases hm : m = 0
  · subst hm
    exact (natRepr_eq_zero_arg n h.symm).symm
  · by_cases hn : n = 0
    · subst hn
      exact natRepr_eq_zero_arg m h
    · rw [natRepr, if_neg hm, natRepr, if_neg hn] at h
      have hl : ((natDigits m).map digitToChar).reverse =
          ((natDigits n).map digitToChar).reverse := congrArg String.data h
      have hmap := List.reverse_injective hl
      have hdig := map_digitToChar_inj _ _ (natDigits_lt m) (natDigits_lt n)
        hmap
      rw [natDigits_eq_digits, natDigits_eq_digits] at hdig
      calc m = Nat.ofDigits 10 (Nat.digits 10 m) :=
            (Nat.ofDigits_digits 10 m).symm
        _ = Nat.ofDigits 10 (Nat.digits 10 n) := by rw [hdig]
        _ = n := Nat.ofDigits_digits 10 n

theorem intRepr_chars (z : Int) :
    ∀ c ∈ (intRepr z).data, c.isDigit = true ∨ c = '-' := by
  intro c hc
  rw [intRepr] at hc
  by_cases hz : z < 0
  · rw [if_pos hz] at hc
    rw [String.data_append] at hc
    rcases List.mem_append.mp hc with h1 | h1
    · right
      simpa using h1
    · exact Or.inl (natRepr_chars_digit z.natAbs c h1)
  · rw [if_neg hz] at hc
    exact Or.inl (natRepr_chars_digit z.natAbs c hc)

theorem slash_not_mem_intRepr (z : Int) : '/' ∉ (intRepr z).data := by
  intro hmem
  rcases intRepr_chars z '/' hmem with h | h
  · exact absurd h (by decide)
  · exact absurd h (by decide)

theorem intRepr_inj : ∀ a b : Int, intRepr a = intRepr b → a = b := by
  have keymix : ∀ a b : Int, a < 0 → ¬ b < 0 →
      intRepr a ≠ intRepr b := by
    intro a b ha hb h
    rw [intRepr, if_pos ha, intRepr, if_neg hb] at h
    have hd := congrArg String.data h
    rw [String.data_append] at hd
    rcases hne : (natRepr b.natAbs).data with _ | ⟨c, cs⟩
    · exact natRepr_ne_nil _ hne
    · rw [hne] at hd
      have hc : '-' = c := by
        have : ('-' :: (natRepr a.natAbs).data) = c :: cs := hd
        exact (List.cons.injEq _ _ _ _ ▸ this).1
      have : c.isDigit = true :=
        natRepr_chars_digit b.natAbs c (by rw [hne]; exact List.mem_cons_self c cs)
      rw [← hc] at this
      exact absurd this (by decide)
  intro a b h
  by_cases ha : a < 0
  · by_cases hb : b < 0
    · rw [intRepr, if_pos ha, intRepr, if_pos hb] at h
      have hd := congrArg String.data h
      rw [String.data_append, String.data_append] at hd
      have htail := List.append_cancel_left hd
      have := natRepr_inj _ _ (String.ext htail)
      omega
    · exact absurd h (keymix a b ha hb)
  · by_cases hb : b < 0
    · exact absurd h.symm (keymix b a hb ha)
    · rw [intRepr, if_neg ha, intRepr, if_neg hb] at h
      have := natRepr_inj _ _ h
      omega

theorem append_sep_inj (sep : Char) :
    ∀ (a a2 b b2 : List Char), sep ∉ a → sep ∉ a2 →
      a ++ sep :: b = a2 ++ sep :: b2 → a = a2 ∧ b = b2 := by
  intro a
  induction a with
  | nil =>
    intro a2 b b2 _ h2 h
    cases a2 with
    | nil => simpa using h
    | cons x xs =>
      simp only [List.nil_append, List.cons_append, List.cons.injEq] at h
      exfalso
      apply h2
      rw [← h.1]
      exact List.mem_cons_self sep xs
  | cons y ys ih =>
    intro a2 b b2 h1 h2 h
    cases a2 with
    | nil =>
      simp only [List.nil_append, List.cons_append, List.cons.injEq] at h
      exfalso
      apply h1
      rw [h.1]
      exact List.mem_cons_self sep ys
    | cons x xs =>
      simp only [List.cons_append, List.cons.injEq] at h
      have hrec := ih xs b b2 (fun hm => h1 (List.mem_cons_of_mem y hm))
        (fun hm => h2 (List.mem_cons_of_mem x hm)) h.2
      exact ⟨by rw [h.1, hrec.1], hrec.2⟩

theorem ratRepr_inj : ∀ q r : ℚ, ratRepr q = ratRepr r → q = r := by
  intro q r h
  rw [ratRepr, ratRepr] at h
  have hd := congrArg String.data h
  simp only [String.data_append] at hd
  rw [List.append_assoc, List.append_assoc] at hd
  have hd2 : (intRepr q.num).data ++ '/' :: (natRepr q.den).data =
      (intRepr r.num).data ++ '/' :: (natRepr r.den).data := by
    simpa using hd
  obtain ⟨hnum, hden⟩ := append_sep_inj '/' _ _ _ _
    (slash_not_mem_intRepr q.num) (slash_not_mem_intRepr r.num) hd2
  exact Rat.ext (intRepr_inj _ _ (String.ext hnum))
    (natRepr_inj _ _ (String.ext hden))

theorem ratRepr_ne_nil (q : ℚ) : (ratRepr q).data ≠ [] := by
  rw [ratRepr]
  simp [String.data_append]

theorem pyOrEmpty_inj (l1 l2 : Option ℚ) (h : pyOrEmpty l1 = pyOrEmpty l2)
    (hne : l1 ≠ l2) :
    (l1 = none ∨ l1 = some 0) ∧ (l2 = none ∨ l2 = some 0) := by
  have hemp : ∀ q : ℚ, pyOrEmpty (some q) = "" → q = 0 := by
    intro q hq
    rw [pyOrEmpty] at hq
    by_cases h0 : q = 0
    · exact h0
    · rw [if_neg h0] at hq
      exact absurd (congrArg String.data hq) (ratRepr_ne_nil q)
  cases l1 with
  | none =>
    cases l2 with
    | none => exact absurd rfl hne
    | some q2 =>
      have h2 : q2 = 0 := hemp q2 h.symm
      exact ⟨Or.inl rfl, Or.inr (by rw [h2])⟩
  | some q1 =>
    cases l2 with
    | none =>
      have h1 : q1 = 0 := hemp q1 h
      exact ⟨Or.inr (by rw [h1]), Or.inl rfl⟩
    | some q2 =>
      by_cases h1 : q1 = 0
      · by_cases h2 : q2 = 0
        · subst h1
          subst h2
          exact absurd rfl hne
        · rw [pyOrEmpty, pyOrEmpty, if_pos h1, if_neg h2] at h
          exact absurd (congrArg String.data h.symm) (ratRepr_ne_nil q2)
      · by_cases h2 : q2 = 0
        · rw [pyOrEmpty, pyOrEmpty, if_neg h1, if_pos h2] at h
          exact absurd (congrArg String.data h) (ratRepr_ne_nil q1)
        · rw [pyOrEmpty, pyOrEmpty, if_neg h1, if_neg h2] at h
          exact absurd (congrArg (Option.some) (ratRepr_inj _ _ h)) hne

/-- C5 counterexample: the quadruples (url, 10, CAD, None) and
(url, 10, CAD, 0.0) differ in their list price, yet — because Python's
`list_price or ''` renders both falsy values as the empty string — they
receive identical signatures. -/
theorem signature_listprice_zero_collision :
    generate_signature "http://e.com/p" 10 "CAD" none =
      generate_signature "http://e.com/p" 10 "CAD" (some 0) ∧
    (none : Option ℚ) ≠ some 0 := by
  constructor
  · with_unfolding_all decide
  · simp

/-- C5 amended: the signature is a deterministic function of the
quadruple — identical quadruples give identical signatures — and
changing the price or the currency (the others fixed) changes the
signature; changing the list price changes it too, except between the
two falsy values None and 0.0, which render identically in the hashed
string (the collision of the counterexample). -/
theorem signature_change_detection :
    (∀ u1 u2 : String, ∀ p1 p2 : ℚ, ∀ c1 c2 : String, ∀ l1 l2 : Option ℚ,
      u1 = u2 → p1 = p2 → c1 = c2 → l1 = l2 →
      generate_signature u1 p1 c1 l1 = generate_signature u2 p2 c2 l2) ∧
    (∀ url : String, ∀ p p2 : ℚ, ∀ c : String, ∀ lp : Option ℚ, p ≠ p2 →
      generate_signature url p c lp ≠ generate_signature url p2 c lp) ∧
    (∀ url : String, ∀ p : ℚ, ∀ c c2 : String, ∀ lp : Option ℚ, c ≠ c2 →
      generate_signature url p c lp ≠ generate_signature url p c2 lp) ∧
    (∀ url : String, ∀ p : ℚ, ∀ c : String, ∀ l1 l2 : Option ℚ, l1 ≠ l2 →
      ¬ ((l1 = none ∨ l1 = some 0) ∧ (l2 = none ∨ l2 = some 0)) →
      generate_signature url p c l1 ≠ generate_signature url p c l2) := by
  refine ⟨?_, ?_, ?_, ?_⟩
  · intro u1 u2 p1 p2 c1 c2 l1 l2 hu hp hc hl
    rw [hu, hp, hc, hl]
  · intro url p p2 c lp hne h
    apply hne
    have hd := congrArg String.data h
    simp only [generate_signature, String.data_append, List.append_assoc]
      at hd
    have h1 := List.append_cancel_left hd
    have h2 := List.append_cancel_left h1
    have h3 := List.append_cancel_right h2
    exact ratRepr_inj _ _ (String.ext h3)
  · intro url p c c2 lp hne h
    apply hne
    have hd := congrArg String.data h
    simp only [generate_signature, String.data_append, List.append_assoc]
      at hd
    have h1 := List.append_cancel_left hd
    have h2 := List.append_cancel_left h1
    have h3 := List.append_cancel_left h2
    have h4 := List.append_cancel_left h3
    have h5 := List.append_cancel_right h4
    exact String.ext h5
  · intro url p c l1 l2 hne hfalsy h
    apply hfalsy
    have hd := congrArg String.data h
    simp only [generate_signature, String.data_append, List.append_assoc]
      at hd
    have h1 := List.append_cancel_left hd
    have h2 := List.append_cancel_left h1
    have h3 := List.append_cancel_left h2
    have h4 := List.append_cancel_left h3
    have h5 := List.append_cancel_left h4
    have h6 := List.append_cancel_left h5
    exact pyOrEmpty_inj l1 l2 (String.ext h6) hne

/-- Witness for the amended C5: prices 10 and 11 on the same url,
currency and list price give distinct signatures. -/
theorem signature_change_detection_witness :
    generate_signature "http://e.com/p" 10 "CAD" none ≠
      generate_signature "http://e.com/p" 11 "CAD" none :=
  signature_change_detection.2.1 "http://e.com/p" 10 11 "CAD" none
    (by norm_num)

end PriceTracker
